import Mathlib

/-!
Verification of the HALO session engine from `routes/core_v1.py`.

The engine keeps a registry mapping session identifiers to mutable
per-session accumulators (`HaloSessionState`).  Signal values are Python
floats; we model them as rationals.  The Python dict is modelled as an
association list with unique keys (insertion appends at the end, lookup
finds the unique entry).  `state.record(...)` mutates the accumulator in
place; we model this by functional update of the registry entry.
-/

/-- Per-session accumulator, embedding the dataclass `HaloSessionState`:
`session_id`, `event_count` (default 0) and the three value lists
(default empty). -/
structure HaloSessionState where
  session_id : String
  event_count : Nat
  friction_values : List ℚ
  hesitation_values : List ℚ
  pace_values : List ℚ
deriving DecidableEq

/-- `HaloSessionState(session_id=sid)` with the dataclass field defaults. -/
def HaloSessionState.init (sid : String) : HaloSessionState :=
  { session_id := sid
    event_count := 0
    friction_values := []
    hesitation_values := []
    pace_values := [] }

/-- `HaloSessionState.record`: increment `event_count`, append each
non-`None` signal to its list (`Option.toList` is `[v]` for `some v` and
`[]` for `none`). -/
def HaloSessionState.record (s : HaloSessionState)
    (friction hesitation pace : Option ℚ) : HaloSessionState :=
  { s with
    event_count := s.event_count + 1
    friction_values := s.friction_values ++ friction.toList
    hesitation_values := s.hesitation_values ++ hesitation.toList
    pace_values := s.pace_values ++ pace.toList }

/-- `statistics.mean`: the unweighted arithmetic mean of a list. -/
def statisticsMean (l : List ℚ) : ℚ := l.sum / l.length

/-- The summary dict returned by `HaloSessionState.summary`: `None`
("no data") stands for an empty value list. -/
structure HaloSummary where
  events_count : Nat
  average_friction : Option ℚ
  average_hesitation : Option ℚ
  average_pace : Option ℚ
deriving DecidableEq

/-- `HaloSessionState.summary`: event count plus per-signal mean, with
`None` when the respective list is empty (Python truthiness of a list). -/
def HaloSessionState.summary (s : HaloSessionState) : HaloSummary :=
  { events_count := s.event_count
    average_friction :=
      if s.friction_values = [] then none else some (statisticsMean s.friction_values)
    average_hesitation :=
      if s.hesitation_values = [] then none else some (statisticsMean s.hesitation_values)
    average_pace :=
      if s.pace_values = [] then none else some (statisticsMean s.pace_values) }

/-- Lookup in the registry association list (`session_id in self.sessions`
and `self.sessions[session_id]`). -/
def lookupSession : List (String × HaloSessionState) → String → Option HaloSessionState
  | [], _ => none
  | (k, v) :: rest, sid => if k = sid then some v else lookupSession rest sid

/-- Replace the value stored under a key, modelling the in-place mutation
of the accumulator object referenced by the dict. -/
def setSession : List (String × HaloSessionState) → String → HaloSessionState →
    List (String × HaloSessionState)
  | [], _, _ => []
  | (k, v) :: rest, sid, st =>
      if k = sid then (k, st) :: rest else (k, v) :: setSession rest sid st

/-- The `HaloEngine` class: its only field is the `sessions` dict. -/
structure HaloEngine where
  sessions : List (String × HaloSessionState)
deriving DecidableEq

/-- `HaloEngine()` with an empty registry. -/
def HaloEngine.empty : HaloEngine := ⟨[]⟩

/-- `HaloEngine.start`: insert a fresh accumulator if the key is absent,
otherwise do nothing. -/
def HaloEngine.start (e : HaloEngine) (sid : String) : HaloEngine :=
  match lookupSession e.sessions sid with
  | some _ => e
  | none => ⟨e.sessions ++ [(sid, HaloSessionState.init sid)]⟩

/-- `HaloEngine.record_event`: ensure the session exists (implicit
`start`), record the event on its accumulator and return the new summary.
The second `match` arm models `self.sessions[session_id]`; its `none`
branch is unreachable because the preceding conditional `start` guarantees
the key is present, so the dict indexing cannot fail. -/
def HaloEngine.record_event (e : HaloEngine) (sid : String)
    (friction hesitation pace : Option ℚ) : HaloEngine × HaloSummary :=
  let e1 := match lookupSession e.sessions sid with
    | none => e.start sid
    | some _ => e
  match lookupSession e1.sessions sid with
  | some st =>
      let st1 := st.record friction hesitation pace
      (⟨setSession e1.sessions sid st1⟩, st1.summary)
  | none =>
      (e1, (HaloSessionState.init sid).summary)

/-- `HaloEngine.end` (named `endSession` since `end` is a Lean keyword):
return `none` (`NotFound`) for an unknown key, otherwise the current
summary.  The method only reads state, so the engine is returned
unchanged. -/
def HaloEngine.endSession (e : HaloEngine) (sid : String) :
    HaloEngine × Option HaloSummary :=
  match lookupSession e.sessions sid with
  | none => (e, none)
  | some st => (e, some st.summary)

/-- One engine-level operation, for stating invariants over arbitrary
operation sequences. -/
inductive HaloOp where
  | start (sid : String)
  | record_event (sid : String) (friction hesitation pace : Option ℚ)
  | endSession (sid : String)

/-- Apply one operation to the engine (discarding returned summaries). -/
def HaloEngine.apply (e : HaloEngine) : HaloOp → HaloEngine
  | .start sid => e.start sid
  | .record_event sid f h p => (e.record_event sid f h p).1
  | .endSession sid => (e.endSession sid).1

/-- Run a sequence of operations. -/
def HaloEngine.run (e : HaloEngine) : List HaloOp → HaloEngine
  | [] => e
  | op :: rest => (e.apply op).run rest

/-- The mean-or-`none` branch of `summary`, for one signal: it is `none`
exactly on the empty list, and any reported value is the arithmetic mean. -/
lemma averageBranch_spec (l : List ℚ) :
    ((if l = [] then none else some (statisticsMean l)) = none ↔ l = []) ∧
    ∀ q, (if l = [] then none else some (statisticsMean l)) = some q →
      q * l.length = l.sum := by
  constructor
  · split
    · simp_all
    · simp_all
  · intro q hq
    split at hq
    · exact absurd hq (by simp)
    · rename_i hne
      have hlen : ((l.length : ℚ)) ≠ 0 :=
        Nat.cast_ne_zero.mpr (fun h0 => hne (List.length_eq_zero.mp h0))
      simp only [Option.some.injEq] at hq
      subst hq
      exact div_mul_cancel₀ _ hlen

/-- C1: in any summary, each per-signal average is `none` exactly when
that signal's value list is empty, and any reported average `q` is the
unweighted arithmetic mean of the list (`q` times the number of values
equals their sum); the reported count is the session's event count. -/
theorem C1_summary_average_mean (s : HaloSessionState) :
    (s.summary.average_friction = none ↔ s.friction_values = []) ∧
    (∀ q, s.summary.average_friction = some q →
      q * s.friction_values.length = s.friction_values.sum) ∧
    (s.summary.average_hesitation = none ↔ s.hesitation_values = []) ∧
    (∀ q, s.summary.average_hesitation = some q →
      q * s.hesitation_values.length = s.hesitation_values.sum) ∧
    (s.summary.average_pace = none ↔ s.pace_values = []) ∧
    (∀ q, s.summary.average_pace = some q →
      q * s.pace_values.length = s.pace_values.sum) ∧
    s.summary.events_count = s.event_count :=
  ⟨(averageBranch_spec s.friction_values).1,
   (averageBranch_spec s.friction_values).2,
   (averageBranch_spec s.hesitation_values).1,
   (averageBranch_spec s.hesitation_values).2,
   (averageBranch_spec s.pace_values).1,
   (averageBranch_spec s.pace_values).2,
   rfl⟩

/-- Witness for C1 at a concrete session state: the average of the two
recorded friction values 1 and 3 is 2. -/
theorem C1_summary_average_mean_witness :
    (2 : ℚ) * (((HaloSessionState.init "s1").record (some 1) none none).record
        (some 3) none none).friction_values.length =
      (((HaloSessionState.init "s1").record (some 1) none none).record
        (some 3) none none).friction_values.sum :=
  (C1_summary_average_mean _).2.1 2 (by
    simp [HaloSessionState.init, HaloSessionState.record, HaloSessionState.summary,
      statisticsMean]
    norm_num)

/-- Lookup after replacing the entry under the same key finds the new
value, provided the key was present. -/
lemma lookupSession_set_self (l : List (String × HaloSessionState)) (sid : String)
    (st st0 : HaloSessionState) (h : lookupSession l sid = some st0) :
    lookupSession (setSession l sid st) sid = some st := by
  induction l with
  | nil => simp [lookupSession] at h
  | cons kv rest ih =>
      obtain ⟨k, v⟩ := kv
      by_cases hk : k = sid
      · simp [lookupSession, setSession, hk]
      · simp only [lookupSession, setSession, if_neg hk] at h ⊢
        exact ih h

/-- Appending a fresh key at the end makes it findable when it was
absent before (Python dict insertion). -/
lemma lookupSession_append_right (l : List (String × HaloSessionState)) (sid : String)
    (v : HaloSessionState) (h : lookupSession l sid = none) :
    lookupSession (l ++ [(sid, v)]) sid = some v := by
  induction l with
  | nil => simp [lookupSession]
  | cons kv rest ih =>
      obtain ⟨k, w⟩ := kv
      by_cases hk : k = sid
      · simp [lookupSession, hk] at h
      · simp only [List.cons_append, lookupSession, if_neg hk] at h ⊢
        exact ih h

/-- `start` on a present key leaves the engine unchanged. -/
lemma start_of_some (e : HaloEngine) (sid : String) (st : HaloSessionState)
    (h : lookupSession e.sessions sid = some st) : e.start sid = e := by
  unfold HaloEngine.start
  rw [h]

/-- `start` on an absent key appends a fresh accumulator. -/
lemma start_of_none (e : HaloEngine) (sid : String)
    (h : lookupSession e.sessions sid = none) :
    e.start sid = ⟨e.sessions ++ [(sid, HaloSessionState.init sid)]⟩ := by
  unfold HaloEngine.start
  rw [h]

/-- After `start` the key is always present. -/
lemma lookupSession_start_self (e : HaloEngine) (sid : String) :
    ∃ st, lookupSession (e.start sid).sessions sid = some st := by
  cases h : lookupSession e.sessions sid with
  | some st => exact ⟨st, by rw [start_of_some e sid st h]; exact h⟩
  | none =>
      exact ⟨HaloSessionState.init sid, by
        rw [start_of_none e sid h]
        exact lookupSession_append_right _ _ _ h⟩

/-- `record_event` on a present key: replace the accumulator by its
recorded version and return that version's summary. -/
lemma record_event_of_some (e : HaloEngine) (sid : String) (f hq p : Option ℚ)
    (st : HaloSessionState) (h : lookupSession e.sessions sid = some st) :
    e.record_event sid f hq p =
      (⟨setSession e.sessions sid (st.record f hq p)⟩, (st.record f hq p).summary) := by
  simp only [HaloEngine.record_event, h]

/-- `record_event` on an absent key: implicit `start` appends a fresh
accumulator, which is then recorded on. -/
lemma record_event_of_none (e : HaloEngine) (sid : String) (f hq p : Option ℚ)
    (h : lookupSession e.sessions sid = none) :
    e.record_event sid f hq p =
      (⟨setSession (e.sessions ++ [(sid, HaloSessionState.init sid)]) sid
          ((HaloSessionState.init sid).record f hq p)⟩,
       ((HaloSessionState.init sid).record f hq p).summary) := by
  have h1 : e.start sid = ⟨e.sessions ++ [(sid, HaloSessionState.init sid)]⟩ :=
    start_of_none e sid h
  have h2 := lookupSession_append_right e.sessions sid (HaloSessionState.init sid) h
  simp only [HaloEngine.record_event, h, h1, h2]

/-- `endSession` never changes the engine (the method only reads). -/
lemma endSession_fst (e : HaloEngine) (sid : String) : (e.endSession sid).1 = e := by
  cases h : lookupSession e.sessions sid <;> simp [HaloEngine.endSession, h]

/-- C3: `end` reports `NotFound` (`none`) exactly when the session id is
absent from the registry; on a present session it returns that session's
current summary. -/
theorem C3_end_notfound_iff (e : HaloEngine) (sid : String) :
    ((e.endSession sid).2 = none ↔ lookupSession e.sessions sid = none) ∧
    (∀ st, lookupSession e.sessions sid = some st →
      (e.endSession sid).2 = some st.summary) := by
  constructor
  · cases h : lookupSession e.sessions sid <;> simp [HaloEngine.endSession, h]
  · intro st h
    simp [HaloEngine.endSession, h]

/-- Witness for C3: on the empty registry `end` gives `NotFound`; on a
registry holding session `s1` it returns that session's summary. -/
theorem C3_end_notfound_iff_witness :
    (HaloEngine.empty.endSession "s1").2 = none ∧
    ((⟨[("s1", HaloSessionState.init "s1")]⟩ : HaloEngine).endSession "s1").2 =
      some (HaloSessionState.init "s1").summary :=
  ⟨(C3_end_notfound_iff HaloEngine.empty "s1").1.mpr rfl,
   (C3_end_notfound_iff ⟨[("s1", HaloSessionState.init "s1")]⟩ "s1").2
     (HaloSessionState.init "s1") (by simp [lookupSession])⟩

/-- C5: `end` leaves the registry (hence every session) unchanged, so a
second consecutive `end` returns the same result as the first. -/
theorem C5_end_frame (e : HaloEngine) (sid : String) :
    (e.endSession sid).1 = e ∧
    ((e.endSession sid).1.endSession sid).2 = (e.endSession sid).2 := by
  refine ⟨endSession_fst e sid, ?_⟩
  rw [endSession_fst e sid]

/-- C6: `start` on an already-present session id is a no-op on the whole
registry; in particular a second `start` never resets accumulated state. -/
theorem C6_start_noop (e : HaloEngine) (sid : String) :
    (∀ st, lookupSession e.sessions sid = some st → e.start sid = e) ∧
    (e.start sid).start sid = e.start sid := by
  constructor
  · intro st h
    exact start_of_some e sid st h
  · obtain ⟨st, h⟩ := lookupSession_start_self e sid
    exact start_of_some _ sid st h

/-- Witness for C6: starting `s1` again on a registry that holds it
changes nothing. -/
theorem C6_start_noop_witness :
    (⟨[("s1", HaloSessionState.init "s1")]⟩ : HaloEngine).start "s1" =
      (⟨[("s1", HaloSessionState.init "s1")]⟩ : HaloEngine) :=
  (C6_start_noop ⟨[("s1", HaloSessionState.init "s1")]⟩ "s1").1
    (HaloSessionState.init "s1") (by simp [lookupSession])

/-- C7: `record_event` returns the summary of the post-update accumulator
stored for that session, and an immediate `end` returns exactly that
summary again. -/
theorem C7_record_then_end (e : HaloEngine) (sid : String) (f hq p : Option ℚ) :
    ∃ st, lookupSession (e.record_event sid f hq p).1.sessions sid = some st ∧
      (e.record_event sid f hq p).2 = st.summary ∧
      ((e.record_event sid f hq p).1.endSession sid).2 =
        some ((e.record_event sid f hq p).2) := by
  cases h0 : lookupSession e.sessions sid with
  | some st0 =>
      refine ⟨st0.record f hq p, ?_, ?_, ?_⟩
      · rw [record_event_of_some e sid f hq p st0 h0]
        exact lookupSession_set_self _ _ _ _ h0
      · rw [record_event_of_some e sid f hq p st0 h0]
      · have h1 : lookupSession (e.record_event sid f hq p).1.sessions sid =
            some (st0.record f hq p) := by
          rw [record_event_of_some e sid f hq p st0 h0]
          exact lookupSession_set_self _ _ _ _ h0
        rw [record_event_of_some e sid f hq p st0 h0] at h1 ⊢
        simp [HaloEngine.endSession, h1]
  | none =>
      refine ⟨(HaloSessionState.init sid).record f hq p, ?_, ?_, ?_⟩
      · rw [record_event_of_none e sid f hq p h0]
        exact lookupSession_set_self _ _ _ _ (lookupSession_append_right _ _ _ h0)
      · rw [record_event_of_none e sid f hq p h0]
      · have h1 : lookupSession
            (setSession (e.sessions ++ [(sid, HaloSessionState.init sid)]) sid
              ((HaloSessionState.init sid).record f hq p)) sid =
            some ((HaloSessionState.init sid).record f hq p) :=
          lookupSession_set_self _ _ _ _ (lookupSession_append_right _ _ _ h0)
        rw [record_event_of_none e sid f hq p h0]
        simp [HaloEngine.endSession, h1]

/-- Fold a list of `record_event` calls (each a triple of optional
friction, hesitation and pace values) on one session id. -/
def runRecords (e : HaloEngine) (sid : String) :
    List (Option ℚ × Option ℚ × Option ℚ) → HaloEngine
  | [] => e
  | c :: rest => runRecords (e.record_event sid c.1 c.2.1 c.2.2).1 sid rest

/-- Each `record_event` call adds exactly one to the stored event count,
so a fold of `cs` calls adds `cs.length`. -/
lemma runRecords_event_count (sid : String)
    (cs : List (Option ℚ × Option ℚ × Option ℚ)) :
    ∀ e st, lookupSession e.sessions sid = some st →
      ∃ st', lookupSession (runRecords e sid cs).sessions sid = some st' ∧
        st'.event_count = st.event_count + cs.length := by
  induction cs with
  | nil =>
      intro e st h
      exact ⟨st, h, by simp⟩
  | cons c rest ih =>
      intro e st h
      have hrec := record_event_of_some e sid c.1 c.2.1 c.2.2 st h
      have hlook : lookupSession (e.record_event sid c.1 c.2.1 c.2.2).1.sessions sid =
          some (st.record c.1 c.2.1 c.2.2) := by
        rw [hrec]
        exact lookupSession_set_self _ _ _ _ h
      obtain ⟨st', h1, h2⟩ := ih _ _ hlook
      refine ⟨st', ?_, ?_⟩
      · simpa [runRecords] using h1
      · rw [h2]
        simp only [HaloSessionState.record, List.length_cons]
        omega

/-- C2: on a fresh session, the summary returned by the N-th
`record_event` call reports `events_count = N`, whatever mixture of
present and absent signals the calls carried (here N = `cs.length + 1`,
the calls being `cs` followed by `c`). -/
theorem C2_events_count_is_call_count (sid : String)
    (cs : List (Option ℚ × Option ℚ × Option ℚ)) (c : Option ℚ × Option ℚ × Option ℚ) :
    ((runRecords (HaloEngine.empty.start sid) sid cs).record_event sid
        c.1 c.2.1 c.2.2).2.events_count = cs.length + 1 := by
  have h0 : lookupSession (HaloEngine.empty.start sid).sessions sid =
      some (HaloSessionState.init sid) := by
    rw [start_of_none HaloEngine.empty sid rfl]
    exact lookupSession_append_right _ _ _ rfl
  obtain ⟨st', h1, h2⟩ := runRecords_event_count sid cs _ _ h0
  rw [record_event_of_some _ sid c.1 c.2.1 c.2.2 st' h1]
  simp only [HaloSessionState.record, HaloSessionState.summary, HaloSessionState.init] at h2 ⊢
  omega

/-- C4: `record_event` on an unknown session id first creates the empty
accumulator, then records on it: the stored state is the fresh state
recorded once, its event count is 1, each present signal contributed its
single value (and absent ones nothing), and the returned summary says
`events_count = 1`. -/
theorem C4_implicit_start (e : HaloEngine) (sid : String) (f hq p : Option ℚ)
    (h0 : lookupSession e.sessions sid = none) :
    (e.record_event sid f hq p).2.events_count = 1 ∧
    lookupSession (e.record_event sid f hq p).1.sessions sid =
      some ((HaloSessionState.init sid).record f hq p) ∧
    ((HaloSessionState.init sid).record f hq p).event_count = 1 ∧
    ((HaloSessionState.init sid).record f hq p).friction_values = f.toList ∧
    ((HaloSessionState.init sid).record f hq p).hesitation_values = hq.toList ∧
    ((HaloSessionState.init sid).record f hq p).pace_values = p.toList := by
  have hrec := record_event_of_none e sid f hq p h0
  refine ⟨?_, ?_, rfl, rfl, rfl, rfl⟩
  · rw [hrec]
    rfl
  · rw [hrec]
    exact lookupSession_set_self _ _ _ _ (lookupSession_append_right _ _ _ h0)

/-- Witness for C4: the first `record_event` on an empty registry yields
a summary with `events_count = 1`. -/
theorem C4_implicit_start_witness :
    (HaloEngine.empty.record_event "s1" (some 1) none none).2.events_count = 1 :=
  (C4_implicit_start HaloEngine.empty "s1" (some 1) none none rfl).1

/-- A successful lookup corresponds to an entry of the list whose key is
the looked-up id. -/
lemma lookupSession_mem (l : List (String × HaloSessionState)) (sid : String)
    (st : HaloSessionState) (h : lookupSession l sid = some st) : (sid, st) ∈ l := by
  induction l with
  | nil => simp [lookupSession] at h
  | cons kv rest ih =>
      obtain ⟨k, v⟩ := kv
      by_cases hk : k = sid
      · subst hk
        simp [lookupSession] at h
        subst h
        exact List.mem_cons_self _ _
      · simp only [lookupSession, if_neg hk] at h
        exact List.mem_cons_of_mem _ (ih h)

/-- Every entry of `setSession l sid st` is an old entry of `l` or the
replacement `(sid, st)`. -/
lemma mem_setSession (l : List (String × HaloSessionState)) (sid : String)
    (st : HaloSessionState) (kv : String × HaloSessionState)
    (h : kv ∈ setSession l sid st) : kv ∈ l ∨ kv = (sid, st) := by
  induction l with
  | nil => simp [setSession] at h
  | cons kv0 rest ih =>
      obtain ⟨k, v⟩ := kv0
      by_cases hk : k = sid
      · rw [setSession, if_pos hk] at h
        rcases List.mem_cons.mp h with h1 | h1
        · exact Or.inr (by rw [h1, hk])
        · exact Or.inl (List.mem_cons_of_mem _ h1)
      · rw [setSession, if_neg hk] at h
        rcases List.mem_cons.mp h with h1 | h1
        · exact Or.inl (h1 ▸ List.mem_cons_self _ _)
        · rcases ih h1 with h2 | h2
          · exact Or.inl (List.mem_cons_of_mem _ h2)
          · exact Or.inr h2

/-- Every registry entry after one operation is an old entry, a freshly
created accumulator, or the recorded version of a previously stored (or
freshly created) accumulator for the operation's session id. -/
lemma mem_apply (e : HaloEngine) (op : HaloOp) (kv : String × HaloSessionState)
    (h : kv ∈ (e.apply op).sessions) :
    kv ∈ e.sessions ∨
    (∃ sid, kv = (sid, HaloSessionState.init sid)) ∨
    (∃ sid st0 f hq p, lookupSession e.sessions sid = some st0 ∧
      kv = (sid, st0.record f hq p)) ∨
    (∃ sid f hq p, kv = (sid, (HaloSessionState.init sid).record f hq p)) := by
  cases op with
  | start sid =>
      simp only [HaloEngine.apply] at h
      cases h0 : lookupSession e.sessions sid with
      | some st0 =>
          rw [start_of_some e sid st0 h0] at h
          exact Or.inl h
      | none =>
          rw [start_of_none e sid h0] at h
          rcases List.mem_append.mp h with h1 | h1
          · exact Or.inl h1
          · exact Or.inr (Or.inl ⟨sid, List.mem_singleton.mp h1⟩)
  | record_event sid f hq p =>
      simp only [HaloEngine.apply] at h
      cases h0 : lookupSession e.sessions sid with
      | some st0 =>
          rw [record_event_of_some e sid f hq p st0 h0] at h
          rcases mem_setSession _ _ _ _ h with h1 | h1
          · exact Or.inl h1
          · exact Or.inr (Or.inr (Or.inl ⟨sid, st0, f, hq, p, h0, h1⟩))
      | none =>
          rw [record_event_of_none e sid f hq p h0] at h
          rcases mem_setSession _ _ _ _ h with h1 | h1
          · rcases List.mem_append.mp h1 with h2 | h2
            · exact Or.inl h2
            · exact Or.inr (Or.inl ⟨sid, List.mem_singleton.mp h2⟩)
          · exact Or.inr (Or.inr (Or.inr ⟨sid, f, hq, p, h1⟩))
  | endSession sid =>
      simp only [HaloEngine.apply] at h
      rw [endSession_fst e sid] at h
      exact Or.inl h

/-- A predicate preserved by every single operation holds after running
any operation sequence. -/
lemma run_preserves (P : HaloEngine → Prop)
    (hstep : ∀ e op, P e → P (e.apply op)) (ops : List HaloOp) :
    ∀ e, P e → P (e.run ops) := by
  induction ops with
  | nil => exact fun e hp => hp
  | cons op rest ih => exact fun e hp => ih _ (hstep e op hp)

/-- Well-formedness of one accumulator: the event count bounds the length
of each value sequence. -/
def SessionWF (s : HaloSessionState) : Prop :=
  s.friction_values.length ≤ s.event_count ∧
  s.hesitation_values.length ≤ s.event_count ∧
  s.pace_values.length ≤ s.event_count

/-- Every accumulator stored in the registry is well-formed. -/
def EngineWF (e : HaloEngine) : Prop :=
  ∀ k st, (k, st) ∈ e.sessions → SessionWF st

/-- A fresh accumulator is well-formed. -/
lemma sessionWF_init (sid : String) : SessionWF (HaloSessionState.init sid) := by
  simp [SessionWF, HaloSessionState.init]

/-- Recording one event preserves well-formedness: each list grows by at
most one element while the count grows by exactly one. -/
lemma sessionWF_record (s : HaloSessionState) (f hq p : Option ℚ)
    (hs : SessionWF s) : SessionWF (s.record f hq p) := by
  have hf : f.toList.length ≤ 1 := by cases f <;> simp
  have hh : hq.toList.length ≤ 1 := by cases hq <;> simp
  have hp : p.toList.length ≤ 1 := by cases p <;> simp
  simp only [SessionWF, HaloSessionState.record, List.length_append] at hs ⊢
  omega

/-- One operation preserves engine well-formedness. -/
lemma engineWF_apply (e : HaloEngine) (op : HaloOp) (he : EngineWF e) :
    EngineWF (e.apply op) := by
  intro k st hmem
  rcases mem_apply e op (k, st) hmem with h1 | ⟨sid, h1⟩ | ⟨sid, st0, f, hq, p, h0, h1⟩ |
      ⟨sid, f, hq, p, h1⟩
  · exact he k st h1
  · rw [show st = HaloSessionState.init sid from congrArg Prod.snd h1]
    exact sessionWF_init sid
  · rw [show st = st0.record f hq p from congrArg Prod.snd h1]
    exact sessionWF_record st0 f hq p (he sid st0 (lookupSession_mem _ _ _ h0))
  · rw [show st = (HaloSessionState.init sid).record f hq p from congrArg Prod.snd h1]
    exact sessionWF_record _ f hq p (sessionWF_init sid)

/-- C8: after any operation sequence from the empty registry, every
stored session's event count is at least the length of each of its three
value sequences; moreover an absent (null) signal never grows its
sequence on `record`. -/
theorem C8_count_bounds_sequences :
    (∀ ops : List HaloOp, ∀ k st, (k, st) ∈ (HaloEngine.empty.run ops).sessions →
      st.friction_values.length ≤ st.event_count ∧
      st.hesitation_values.length ≤ st.event_count ∧
      st.pace_values.length ≤ st.event_count) ∧
    (∀ (s : HaloSessionState) (hq p : Option ℚ),
      (s.record none hq p).friction_values = s.friction_values) ∧
    (∀ (s : HaloSessionState) (f p : Option ℚ),
      (s.record f none p).hesitation_values = s.hesitation_values) ∧
    (∀ (s : HaloSessionState) (f hq : Option ℚ),
      (s.record f hq none).pace_values = s.pace_values) := by
  refine ⟨?_, ?_, ?_, ?_⟩
  · intro ops k st hmem
    have hrun : EngineWF (HaloEngine.empty.run ops) :=
      run_preserves EngineWF engineWF_apply ops HaloEngine.empty
        (fun k st h => by simp [HaloEngine.empty] at h)
    exact hrun k st hmem
  · intro s hq p
    simp [HaloSessionState.record]
  · intro s f p
    simp [HaloSessionState.record]
  · intro s f hq
    simp [HaloSessionState.record]

/-- Witness for C8 after one concrete `record_event`: the stored session
has one event and its sequences have lengths 1, 0 and 0. -/
theorem C8_count_bounds_sequences_witness :
    ((HaloSessionState.init "s1").record (some 1) none none).friction_values.length ≤
      ((HaloSessionState.init "s1").record (some 1) none none).event_count ∧
    ((HaloSessionState.init "s1").record (some 1) none none).hesitation_values.length ≤
      ((HaloSessionState.init "s1").record (some 1) none none).event_count ∧
    ((HaloSessionState.init "s1").record (some 1) none none).pace_values.length ≤
      ((HaloSessionState.init "s1").record (some 1) none none).event_count :=
  C8_count_bounds_sequences.1 [HaloOp.record_event "s1" (some 1) none none] "s1"
    ((HaloSessionState.init "s1").record (some 1) none none)
    (by simp [HaloEngine.run, HaloEngine.apply, HaloEngine.empty, HaloEngine.record_event,
      HaloEngine.start, lookupSession, setSession])

/-- Every stored accumulator's `session_id` equals its registry key. -/
def KeysConsistent (e : HaloEngine) : Prop :=
  ∀ k st, (k, st) ∈ e.sessions → st.session_id = k

/-- One operation preserves registry key consistency. -/
lemma keysConsistent_apply (e : HaloEngine) (op : HaloOp) (he : KeysConsistent e) :
    KeysConsistent (e.apply op) := by
  intro k st hmem
  rcases mem_apply e op (k, st) hmem with h1 | ⟨sid, h1⟩ | ⟨sid, st0, f, hq, p, h0, h1⟩ |
      ⟨sid, f, hq, p, h1⟩
  · exact he k st h1
  · obtain ⟨hk, hst⟩ := Prod.mk.injEq .. ▸ h1
    rw [hst, hk]
    rfl
  · obtain ⟨hk, hst⟩ := Prod.mk.injEq .. ▸ h1
    rw [hst, hk]
    exact he sid st0 (lookupSession_mem _ _ _ h0)
  · obtain ⟨hk, hst⟩ := Prod.mk.injEq .. ▸ h1
    rw [hst, hk]
    rfl

/-- C10: after any operation sequence from the empty registry, every
entry's stored `session_id` equals the key it is filed under. -/
theorem C10_registry_key_consistency (ops : List HaloOp) (k : String)
    (st : HaloSessionState) (hmem : (k, st) ∈ (HaloEngine.empty.run ops).sessions) :
    st.session_id = k :=
  run_preserves KeysConsistent keysConsistent_apply ops HaloEngine.empty
    (fun k st h => by simp [HaloEngine.empty] at h) k st hmem

/-- Witness for C10: the accumulator created by `start "s1"` is filed
under `"s1"` and carries `session_id = "s1"`. -/
theorem C10_registry_key_consistency_witness :
    (HaloSessionState.init "s1").session_id = "s1" :=
  C10_registry_key_consistency [HaloOp.start "s1"] "s1" (HaloSessionState.init "s1")
    (by simp [HaloEngine.run, HaloEngine.apply, HaloEngine.empty, HaloEngine.start,
      lookupSession])
